import Mathlib

/-!
Verification of the FIR lowpass filter design by linear programming
(firlp_lowpass_example.py).

The development models the two core functions of the script:

* `solve_linprog` — the LP solver adapter: it receives the outcome of the
  external interior-point solve (a possible numerical warning and the solver
  result record), converts any warning into a hard error, turns an
  unsuccessful solve into an error, and on success reconstructs the
  symmetric FIR taps from the solution vector.
* `firlp_lowpass1` — the design pipeline: derive the transition-band edges,
  build the frequency grid, assemble the LP matrices, and hand the call to
  the solver adapter.

Real numbers stand for the floating-point values of the script; `numpy.linspace`
is modelled by `linspace`, and the external `scipy.optimize.linprog` call is
modelled by the data actually passed to it (`LPCall`) together with an
abstract solver behaviour supplied as a function argument.
-/

namespace Firlp

noncomputable section

/-- Model of numpy.linspace with the default endpoint=True: num evenly
spaced samples from start to stop inclusive; num = 1 gives just the start. -/
def linspace (start stop : ℝ) : ℕ → List ℝ
  | 0 => []
  | 1 => [start]
  | n + 2 => (List.range (n + 2)).map fun (i : ℕ) => start + (i : ℝ) * ((stop - start) / ((n : ℝ) + 1))

/-- Pass-band edge in radians per sample (source line 58):
wp = pi*(cutoff - 0.5*width)/(0.5*fs). -/
def wpOf (cutoff width fs : ℝ) : ℝ := Real.pi * (cutoff - 0.5 * width) / (0.5 * fs)

/-- Stop-band edge in radians per sample (source line 59):
ws = pi*(cutoff + 0.5*width)/(0.5*fs). -/
def wsOf (cutoff width fs : ℝ) : ℝ := Real.pi * (cutoff + 0.5 * width) / (0.5 * fs)

/-- Grid density (source line 61): density = 16*numtaps/pi. -/
def densityOf (numtaps : ℕ) : ℝ := 16 * (numtaps : ℝ) / Real.pi

/-- Number of grid points in the pass band (source line 63):
int(np.ceil(wp*density)). -/
def numfreqsPassZ (numtaps : ℕ) (cutoff width fs : ℝ) : ℤ :=
  ⌈wpOf cutoff width fs * densityOf numtaps⌉

/-- Number of grid points in the stop band (source line 65):
int(np.ceil((pi - ws)*density)). -/
def numfreqsStopZ (numtaps : ℕ) (cutoff width fs : ℝ) : ℤ :=
  ⌈(Real.pi - wsOf cutoff width fs) * densityOf numtaps⌉

/-- Pass-band frequency grid (source lines 68-71): linspace(0, wp,
numfreqs_pass) with the first point (frequency 0) removed. -/
def passGrid (numtaps : ℕ) (cutoff width fs : ℝ) : List ℝ :=
  (linspace 0 (wpOf cutoff width fs) (numfreqsPassZ numtaps cutoff width fs).toNat).drop 1

/-- Stop-band frequency grid (source line 73): linspace(ws, pi, numfreqs_stop). -/
def stopGrid (numtaps : ℕ) (cutoff width fs : ℝ) : List ℝ :=
  linspace (wsOf cutoff width fs) Real.pi (numfreqsStopZ numtaps cutoff width fs).toNat

/-- Cosine basis row (source line 86): row of np.cos(wgrid[:, np.newaxis] *
np.arange(R+1)) at frequency omega, namely [cos(omega*0), ..., cos(omega*R)]. -/
def cosRow (R : ℕ) (omega : ℝ) : List ℝ :=
  (List.range (R + 1)).map fun (k : ℕ) => Real.cos (omega * (k : ℝ))

/-- Inequality matrix (source lines 87-89): A = np.block([[C, -V], [-C, -V]])
where V is the column of reciprocals of the weights. -/
def buildA (R : ℕ) (wgrid weights : List ℝ) : List (List ℝ) :=
  ((wgrid.zip weights).map fun q => cosRow R q.1 ++ [-(1 / q.2)]) ++
    ((wgrid.zip weights).map fun q => (cosRow R q.1).map (fun v => -v) ++ [-(1 / q.2)])

/-- Inequality right-hand side (source line 90): b = np.block([[desired,
-desired]]).T, i.e. the desired gains followed by their negations. -/
def buildB (desired : List ℝ) : List ℝ := desired ++ desired.map fun v => -v

/-- Objective vector (source lines 91-92): c = np.zeros(R+2) with c[-1] = 1. -/
def buildC (R : ℕ) : List ℝ := List.replicate (R + 1) 0 ++ [1]

/-- The data of one call to scipy.optimize.linprog assembled by the script
(source lines 34-37 and 85-97). -/
structure LPCall where
  c : List ℝ
  A_ub : List (List ℝ)
  b_ub : List ℝ
  A_eq : List (List ℝ)
  b_eq : List ℝ
  bounds : Option ℝ × Option ℝ
  method : String
  maxiter : ℕ
  tol : ℝ

/-- Assemble the full LP call from the combined grid, weights and desired
gains: the inequality system from `buildA`/`buildB`, the objective from
`buildC`, the single DC equality constraint A_eq = np.ones((1, R+2)) with
A_eq[:, -1] = 0 and b_eq = [1] (source lines 94-97), explicit unbounded
variable bounds (None, None), the interior-point method, maxiter 5000 and
the given tolerance with default 1e-6 (source lines 24-37). -/
def mkCall (R : ℕ) (wgrid weights desired : List ℝ) (tol : Option ℝ) : LPCall where
  c := buildC R
  A_ub := buildA R wgrid weights
  b_ub := buildB desired
  A_eq := [List.replicate (R + 1) 1 ++ [0]]
  b_eq := [1]
  bounds := (none, none)
  method := "interior-point"
  maxiter := 5000
  tol := tol.getD (1 / 1000000)

/-- Errors the script can raise: ValueError from numpy.linspace on a
negative sample count, the RuntimeWarning re-raised by the adapter when the
solver emitted a numerical warning, and the RuntimeError raised when the
solver did not report success. -/
inductive FirlpError where
  | valueError (msg : String)
  | runtimeWarning (msg : String)
  | runtimeError (msg : String)
deriving DecidableEq

/-- Result record returned by scipy.optimize.linprog: success flag, solution
vector x, and status message. -/
structure LinprogResult where
  success : Bool
  x : List ℝ
  message : String

/-- Tap reconstruction (source lines 51-52): p = result.x[:-1] and
taps = 0.5*np.concatenate((p[:0:-1], [2*p[0]], p[1:])). -/
def tapsOf (x : List ℝ) : List ℝ :=
  ((x.dropLast.drop 1).reverse ++ [2 * x.dropLast.headI] ++ x.dropLast.drop 1).map
    fun v => 0.5 * v

/-- Modelled from the spec words of the Tap Reconstructor: with p = x[0..R],
taps = 0.5 * concat(reverse(p[1..R]), [2*p[0]], p[1..R]). -/
def tapsSpec (R : ℕ) (x : List ℝ) : List ℝ :=
  (((x.take (R + 1)).drop 1).reverse ++ [2 * (x.take (R + 1)).getD 0 0] ++
    (x.take (R + 1)).drop 1).map fun v => 0.5 * v

/-- The LP solver adapter after the external solve (source lines 29-53): a
RuntimeWarning caught during the solve is re-raised as an error carrying the
warning text; a result without success raises a RuntimeError carrying the
solver message; otherwise the taps reconstructed from the solution vector
are returned. -/
def solve_linprog (warning : Option String) (res : LinprogResult) :
    Except FirlpError (List ℝ) :=
  match warning with
  | some w => .error (.runtimeWarning ("linprog warning converted to error: " ++ w))
  | none =>
    if res.success then .ok (tapsOf res.x)
    else .error (.runtimeError ("linprog failed: " ++ res.message))

/-- Grid construction and LP assembly of firlp_lowpass1 (source lines
56-108), up to the linprog call: numpy.linspace raises ValueError on a
negative sample count, otherwise the grids, weights and desired gains are
concatenated (pass band first) and the LP call is assembled with
R = (numtaps - 1)//2. -/
def firlpCall (numtaps : ℕ) (deltap deltas cutoff width fs : ℝ) (tol : Option ℝ) :
    Except FirlpError LPCall :=
  if numfreqsPassZ numtaps cutoff width fs < 0 then
    .error (.valueError "Number of samples must be non-negative")
  else if numfreqsStopZ numtaps cutoff width fs < 0 then
    .error (.valueError "Number of samples must be non-negative")
  else
    let wpgrid := passGrid numtaps cutoff width fs
    let wsgrid := stopGrid numtaps cutoff width fs
    let wgrid := wpgrid ++ wsgrid
    let weights := (wpgrid.map fun _ => 1 / deltap) ++ (wsgrid.map fun _ => 1 / deltas)
    let desired := (wpgrid.map fun _ => (1 : ℝ)) ++ (wsgrid.map fun _ => (0 : ℝ))
    .ok (mkCall ((numtaps - 1) / 2) wgrid weights desired tol)

/-- The whole design pipeline: build the LP call, hand it to the external
solver (modelled as a function from the call to the emitted warning and the
result record), and run the adapter on the outcome. -/
def firlp_lowpass1 (numtaps : ℕ) (deltap deltas cutoff width fs : ℝ) (tol : Option ℝ)
    (solver : LPCall → Option String × LinprogResult) : Except FirlpError (List ℝ) :=
  match firlpCall numtaps deltap deltas cutoff width fs tol with
  | .error e => .error e
  | .ok call => solve_linprog (solver call).1 (solver call).2

/-- Dot product of two coefficient lists. -/
def dot (u v : List ℝ) : ℝ := ((u.zip v).map fun q => q.1 * q.2).sum

theorem linspace_length (a b : ℝ) (n : ℕ) : (linspace a b n).length = n := by
  cases n with
  | zero => rfl
  | succ m =>
    cases m with
    | zero => rfl
    | succ k => simp [linspace]

theorem linspace_getD (a b : ℝ) (n i : ℕ) (h : i < n + 2) :
    (linspace a b (n + 2)).getD i 0 = a + (i : ℝ) * ((b - a) / ((n : ℝ) + 1)) := by
  have hlen : i < ((List.range (n + 2)).map
      fun (j : ℕ) => a + (j : ℝ) * ((b - a) / ((n : ℝ) + 1))).length := by
    simpa using h
  rw [linspace, List.getD_eq_getElem _ _ hlen]
  simp

theorem linspace_pairwise (a b : ℝ) (n : ℕ) (hab : a < b) :
    (linspace a b n).Pairwise (· < ·) := by
  cases n with
  | zero => simp [linspace]
  | succ m =>
    cases m with
    | zero => simp [linspace]
    | succ k =>
      rw [linspace]
      have hstep : 0 < (b - a) / ((k : ℝ) + 1) := by
        apply div_pos (by linarith) (by positivity)
      refine List.Pairwise.map _ ?_ (List.pairwise_lt_range (k + 2))
      intro i j hij
      have hij' : (i : ℝ) < (j : ℝ) := by exact_mod_cast hij
      have := mul_lt_mul_of_pos_right hij' hstep
      linarith

theorem mem_linspace (a b : ℝ) (n : ℕ) (hab : a ≤ b) (x : ℝ)
    (hx : x ∈ linspace a b n) : a ≤ x ∧ x ≤ b := by
  cases n with
  | zero => simp [linspace] at hx
  | succ m =>
    cases m with
    | zero =>
      simp [linspace] at hx
      subst hx
      exact ⟨le_rfl, hab⟩
    | succ k =>
      rw [linspace] at hx
      simp only [List.mem_map, List.mem_range] at hx
      obtain ⟨i, hi, rfl⟩ := hx
      have hstep : 0 ≤ (b - a) / ((k : ℝ) + 1) := by
        apply div_nonneg (by linarith) (by positivity)
      constructor
      · have : 0 ≤ (i : ℝ) * ((b - a) / ((k : ℝ) + 1)) := by positivity
        linarith
      · have hi' : (i : ℝ) ≤ (k : ℝ) + 1 := by exact_mod_cast Nat.lt_succ_iff.mp hi
        have hmono : (i : ℝ) * ((b - a) / ((k : ℝ) + 1)) ≤
            ((k : ℝ) + 1) * ((b - a) / ((k : ℝ) + 1)) :=
          mul_le_mul_of_nonneg_right hi' hstep
        have heq : ((k : ℝ) + 1) * ((b - a) / ((k : ℝ) + 1)) = b - a := by
          field_simp
        linarith

theorem mem_linspace_drop (b : ℝ) (n : ℕ) (hb : 0 < b) (x : ℝ)
    (hx : x ∈ (linspace 0 b n).drop 1) : 0 < x ∧ x ≤ b := by
  cases n with
  | zero => simp [linspace] at hx
  | succ m =>
    cases m with
    | zero => simp [linspace] at hx
    | succ k =>
      rw [linspace, List.range_succ_eq_map] at hx
      simp only [List.map_cons, List.drop_succ_cons, List.drop_zero, List.map_map,
        List.mem_map, List.mem_range, Function.comp] at hx
      obtain ⟨i, hi, rfl⟩ := hx
      have hstep : 0 < (b - 0) / ((k : ℝ) + 1) := by
        apply div_pos (by linarith) (by positivity)
      constructor
      · have hpos : 0 < ((i : ℝ) + 1) * ((b - 0) / ((k : ℝ) + 1)) := by positivity
        push_cast
        linarith
      · have hi' : (i : ℝ) + 1 ≤ (k : ℝ) + 1 := by
          have : (i : ℝ) ≤ (k : ℝ) := by exact_mod_cast Nat.lt_succ_iff.mp hi
          linarith
        have hmono : ((i : ℝ) + 1) * ((b - 0) / ((k : ℝ) + 1)) ≤
            ((k : ℝ) + 1) * ((b - 0) / ((k : ℝ) + 1)) :=
          mul_le_mul_of_nonneg_right hi' (le_of_lt hstep)
        have heq : ((k : ℝ) + 1) * ((b - 0) / ((k : ℝ) + 1)) = b - 0 := by
          field_simp
        push_cast
        linarith

theorem tapsOf_length (x : List ℝ) :
    (tapsOf x).length = 2 * (x.dropLast.drop 1).length + 1 := by
  simp [tapsOf]
  omega

theorem tapsOf_reverse (x : List ℝ) : (tapsOf x).reverse = tapsOf x := by
  simp [tapsOf, List.reverse_append]

theorem getD_of_reverse_eq (l : List ℝ) (hl : l.reverse = l) (i : ℕ)
    (hi : i < l.length) : l.getD i 0 = l.getD (l.length - 1 - i) 0 := by
  have hj : l.length - 1 - i < l.length := by omega
  rw [List.getD_eq_getElem _ _ hi, List.getD_eq_getElem _ _ hj]
  have hi2 : i < l.reverse.length := by simpa using hi
  have := List.getElem_reverse (l := l) (i := i) hi2
  rw [List.getElem_of_eq hl] at this
  exact this

theorem sum_map_half (l : List ℝ) : (l.map fun v => 0.5 * v).sum = 0.5 * l.sum := by
  induction l with
  | nil => simp
  | cons a t ih =>
    simp [ih]
    ring

theorem tapsOf_sum (x : List ℝ) (hx : 2 ≤ x.length) :
    (tapsOf x).sum = x.dropLast.headI + (x.dropLast.drop 1).sum ∧
    (tapsOf x).sum = x.dropLast.sum := by
  have hlen : 1 ≤ x.dropLast.length := by
    rw [List.length_dropLast]
    omega
  obtain ⟨a, q, hq⟩ : ∃ a q, x.dropLast = a :: q := by
    cases h : x.dropLast with
    | nil => rw [h] at hlen; simp at hlen
    | cons a q => exact ⟨a, q, rfl⟩
  have h1 : (tapsOf x).sum = x.dropLast.headI + (x.dropLast.drop 1).sum := by
    unfold tapsOf
    rw [sum_map_half, List.sum_append, List.sum_append, List.sum_reverse,
      List.sum_singleton]
    ring
  refine ⟨h1, ?_⟩
  rw [h1, hq]
  simp

theorem dot_ones_zero (n : ℕ) (x : List ℝ) (hx : x.length = n + 1) :
    dot (List.replicate n 1 ++ [0]) x = (x.take n).sum := by
  induction n generalizing x with
  | zero =>
    cases x with
    | nil => simp at hx
    | cons a t =>
      cases t with
      | nil => simp [dot]
      | cons b u => simp at hx
  | succ m ih =>
    cases x with
    | nil => simp at hx
    | cons a t =>
      have ht : t.length = m + 1 := by simpa using hx
      have hrec := ih t ht
      simp only [List.replicate_succ, List.cons_append, dot, List.zip_cons_cons,
        List.map_cons, List.sum_cons, List.take_succ_cons] at *
      rw [hrec]
      ring

theorem ceil_eval (r : ℝ) (z : ℤ) (h : r = (z : ℝ)) : ⌈r⌉ = z := by
  rw [h, Int.ceil_intCast]

theorem numfreqsPassZ_eq (numtaps : ℕ) (cutoff width fs : ℝ) (hfs : fs ≠ 0) :
    numfreqsPassZ numtaps cutoff width fs =
      ⌈16 * (numtaps : ℝ) * (cutoff - 0.5 * width) / (0.5 * fs)⌉ := by
  unfold numfreqsPassZ wpOf densityOf
  congr 1
  have hpi := Real.pi_ne_zero
  field_simp
  ring

theorem numfreqsStopZ_eq (numtaps : ℕ) (cutoff width fs : ℝ) (hfs : fs ≠ 0) :
    numfreqsStopZ numtaps cutoff width fs =
      ⌈16 * (numtaps : ℝ) * (0.5 * fs - (cutoff + 0.5 * width)) / (0.5 * fs)⌉ := by
  unfold numfreqsStopZ wsOf densityOf
  congr 1
  have hpi := Real.pi_ne_zero
  field_simp
  ring

theorem take_eq_dropLast (R : ℕ) (x : List ℝ) (hx : x.length = R + 2) :
    x.take (R + 1) = x.dropLast := by
  rw [List.dropLast_eq_take, hx]
  norm_num

theorem dropLast_cons_of_length (R : ℕ) (x : List ℝ) (hx : x.length = R + 2) :
    ∃ a q, x.dropLast = a :: q ∧ q.length = R := by
  have hlen : x.dropLast.length = R + 1 := by
    rw [List.length_dropLast, hx]
    omega
  cases h : x.dropLast with
  | nil => rw [h] at hlen; simp at hlen
  | cons a q =>
    refine ⟨a, q, rfl, ?_⟩
    rw [h] at hlen
    simpa using hlen

theorem buildA_length (R : ℕ) (wgrid weights : List ℝ)
    (hw : weights.length = wgrid.length) :
    (buildA R wgrid weights).length = 2 * wgrid.length := by
  simp [buildA, hw]
  omega

theorem buildB_length (desired : List ℝ) :
    (buildB desired).length = 2 * desired.length := by
  simp [buildB]
  omega

theorem buildA_upper (R : ℕ) (wgrid weights : List ℝ)
    (hw : weights.length = wgrid.length) (i : ℕ) (hi : i < wgrid.length) :
    (buildA R wgrid weights).getD i [] =
      cosRow R (wgrid.getD i 0) ++ [-(1 / weights.getD i 0)] := by
  have hz : (wgrid.zip weights).length = wgrid.length := by simp [hw]
  have h1 : i < ((wgrid.zip weights).map
      fun q => cosRow R q.1 ++ [-(1 / q.2)]).length := by
    simpa [hz] using hi
  rw [buildA, List.getD_append _ _ _ _ h1, List.getD_eq_getElem _ _ h1,
    List.getElem_map, List.getElem_zip]
  rw [List.getD_eq_getElem _ _ hi, List.getD_eq_getElem _ _ (hw ▸ hi)]

theorem buildA_lower (R : ℕ) (wgrid weights : List ℝ)
    (hw : weights.length = wgrid.length) (i : ℕ) (hi : i < wgrid.length) :
    (buildA R wgrid weights).getD (wgrid.length + i) [] =
      (cosRow R (wgrid.getD i 0)).map (fun v => -v) ++ [-(1 / weights.getD i 0)] := by
  have hz : (wgrid.zip weights).length = wgrid.length := by simp [hw]
  have h1 : ((wgrid.zip weights).map
      fun q => cosRow R q.1 ++ [-(1 / q.2)]).length ≤ wgrid.length + i := by
    simp [hz]
  have h2 : i < ((wgrid.zip weights).map
      fun q => (cosRow R q.1).map (fun v => -v) ++ [-(1 / q.2)]).length := by
    simpa [hz] using hi
  rw [buildA, List.getD_append_right _ _ _ _ h1]
  have h3 : wgrid.length + i - ((wgrid.zip weights).map
      fun q => cosRow R q.1 ++ [-(1 / q.2)]).length = i := by
    simp [hz]
  rw [h3, List.getD_eq_getElem _ _ h2, List.getElem_map, List.getElem_zip]
  rw [List.getD_eq_getElem _ _ hi, List.getD_eq_getElem _ _ (hw ▸ hi)]

theorem buildB_upper (desired : List ℝ) (i : ℕ) (hi : i < desired.length) :
    (buildB desired).getD i 0 = desired.getD i 0 := by
  rw [buildB, List.getD_append _ _ _ _ hi]

theorem buildB_lower (desired : List ℝ) (i : ℕ) (hi : i < desired.length) :
    (buildB desired).getD (desired.length + i) 0 = -(desired.getD i 0) := by
  have h1 : desired.length ≤ desired.length + i := by omega
  have h2 : i < (desired.map fun v => -v).length := by simpa using hi
  rw [buildB, List.getD_append_right _ _ _ _ h1]
  have h3 : desired.length + i - desired.length = i := by omega
  rw [h3, List.getD_eq_getElem _ _ h2, List.getElem_map]
  rw [List.getD_eq_getElem _ _ hi]

/-- C3: for every LP solution vector of length R+2, with p the vector minus
its trailing slack entry, the reconstructed tap array equals the spec formula
0.5 * concat(reverse(p[1..R]), [2*p[0]], p[1..R]); consequently it has
length 2R+1 and is symmetric about its center. -/
theorem taps_reconstruction_formula_length_symmetry (R : ℕ) (x : List ℝ)
    (hx : x.length = R + 2) :
    tapsOf x = tapsSpec R x ∧
    (tapsOf x).length = 2 * R + 1 ∧
    ∀ i, i < (tapsOf x).length →
      (tapsOf x).getD i 0 = (tapsOf x).getD ((tapsOf x).length - 1 - i) 0 := by
  obtain ⟨a, q, hq, hql⟩ := dropLast_cons_of_length R x hx
  refine ⟨?_, ?_, ?_⟩
  · unfold tapsOf tapsSpec
    rw [take_eq_dropLast R x hx, hq]
    simp
  · rw [tapsOf_length, hq]
    simp [hql]
  · intro i hi
    exact getD_of_reverse_eq (tapsOf x) (tapsOf_reverse x) i hi

/-- Witness for the C3 theorem at the concrete solution vector [3, 4, 7]
with R = 1. -/
theorem taps_reconstruction_formula_length_symmetry_witness :
    ([(3 : ℝ), 4, 7].length = 1 + 2) ∧
    (tapsOf [(3 : ℝ), 4, 7] = tapsSpec 1 [(3 : ℝ), 4, 7] ∧
      (tapsOf [(3 : ℝ), 4, 7]).length = 2 * 1 + 1 ∧
      ∀ i, i < (tapsOf [(3 : ℝ), 4, 7]).length →
        (tapsOf [(3 : ℝ), 4, 7]).getD i 0 =
          (tapsOf [(3 : ℝ), 4, 7]).getD ((tapsOf [(3 : ℝ), 4, 7]).length - 1 - i) 0) :=
  ⟨by simp, taps_reconstruction_formula_length_symmetry 1 [(3 : ℝ), 4, 7] (by simp)⟩

/-- C2: the assembled LP has exactly one equality constraint, the row of
ones with the slack coefficient zeroed and right-hand side 1 (sum(p) = 1);
the reconstruction satisfies sum(taps) = p[0] + sum(p[1..R]) = sum(p) as an
algebraic identity, hence sum(taps) = 1 for any solution vector satisfying
the equality constraint. -/
theorem dc_equality_constraint_and_sum (R : ℕ) (wgrid weights desired : List ℝ)
    (tol : Option ℝ) :
    (mkCall R wgrid weights desired tol).A_eq = [List.replicate (R + 1) 1 ++ [0]] ∧
    (mkCall R wgrid weights desired tol).b_eq = [1] ∧
    (mkCall R wgrid weights desired tol).A_eq.length = 1 ∧
    (∀ x : List ℝ, 2 ≤ x.length →
      (tapsOf x).sum = x.dropLast.headI + (x.dropLast.drop 1).sum ∧
      (tapsOf x).sum = x.dropLast.sum) ∧
    (∀ x : List ℝ, x.length = R + 2 →
      dot ((mkCall R wgrid weights desired tol).A_eq.getD 0 []) x = 1 →
      (tapsOf x).sum = 1) := by
  refine ⟨rfl, rfl, rfl, fun x hx => tapsOf_sum x hx, fun x hx hdot => ?_⟩
  have hgd : (mkCall R wgrid weights desired tol).A_eq.getD 0 [] =
      List.replicate (R + 1) 1 ++ [0] := rfl
  rw [hgd, dot_ones_zero (R + 1) x (by omega)] at hdot
  have hsum := (tapsOf_sum x (by omega)).2
  rw [hsum, ← take_eq_dropLast R x hx, hdot]

/-- Witness for the C2 theorem at R = 1 and the concrete grid data
wgrid = [1], weights = [2], desired = [1], applied to the solution vector
x = [3, -2, 5] which satisfies the equality constraint. -/
theorem dc_equality_constraint_and_sum_witness :
    (([(3 : ℝ), -2, 5].length = 1 + 2) ∧
      dot ((mkCall 1 [(1 : ℝ)] [(2 : ℝ)] [(1 : ℝ)] none).A_eq.getD 0 []) [(3 : ℝ), -2, 5] = 1) ∧
    (tapsOf [(3 : ℝ), -2, 5]).sum = 1 := by
  have h := (dc_equality_constraint_and_sum 1 [(1 : ℝ)] [(2 : ℝ)] [(1 : ℝ)] none).2.2.2.2
  have hdot : dot ((mkCall 1 [(1 : ℝ)] [(2 : ℝ)] [(1 : ℝ)] none).A_eq.getD 0 [])
      [(3 : ℝ), -2, 5] = 1 := by
    show dot (List.replicate 2 1 ++ [0]) [(3 : ℝ), -2, 5] = 1
    simp [dot, List.replicate]
    norm_num
  exact ⟨⟨by simp, hdot⟩, h [(3 : ℝ), -2, 5] (by simp) hdot⟩

/-- C1: the built LP has R+2 variables (the objective and every inequality
row have length R+2), an inequality system of 2m rows with all m upper rows
C(omega_i).p - t/w_i <= d_i first and all m lower rows -C(omega_i).p - t/w_i
<= -d_i after them, an objective that is zero except for a 1 in the slack
position, and variable bounds passed explicitly as unbounded. -/
theorem lp_structure (R : ℕ) (wgrid weights desired : List ℝ) (tol : Option ℝ)
    (hw : weights.length = wgrid.length) (hd : desired.length = wgrid.length) :
    (mkCall R wgrid weights desired tol).c.length = R + 2 ∧
    (mkCall R wgrid weights desired tol).c = List.replicate (R + 1) 0 ++ [1] ∧
    (mkCall R wgrid weights desired tol).A_ub.length = 2 * wgrid.length ∧
    (mkCall R wgrid weights desired tol).b_ub.length = 2 * wgrid.length ∧
    (∀ row ∈ (mkCall R wgrid weights desired tol).A_ub, row.length = R + 2) ∧
    (∀ i, i < wgrid.length →
      (mkCall R wgrid weights desired tol).A_ub.getD i [] =
        cosRow R (wgrid.getD i 0) ++ [-(1 / weights.getD i 0)] ∧
      (mkCall R wgrid weights desired tol).b_ub.getD i 0 = desired.getD i 0 ∧
      (mkCall R wgrid weights desired tol).A_ub.getD (wgrid.length + i) [] =
        (cosRow R (wgrid.getD i 0)).map (fun v => -v) ++ [-(1 / weights.getD i 0)] ∧
      (mkCall R wgrid weights desired tol).b_ub.getD (wgrid.length + i) 0 =
        -(desired.getD i 0)) ∧
    (mkCall R wgrid weights desired tol).bounds = (none, none) := by
  refine ⟨?_, rfl, ?_, ?_, ?_, ?_, rfl⟩
  · simp [mkCall, buildC]
  · exact buildA_length R wgrid weights hw
  · rw [show (mkCall R wgrid weights desired tol).b_ub = buildB desired from rfl,
      buildB_length, hd]
  · intro row hrow
    have hrow2 : row ∈ buildA R wgrid weights := hrow
    rcases List.mem_append.mp hrow2 with h | h
    · obtain ⟨q, hq, rfl⟩ := List.mem_map.mp h
      simp [cosRow]
    · obtain ⟨q, hq, rfl⟩ := List.mem_map.mp h
      simp [cosRow]
  · intro i hi
    refine ⟨buildA_upper R wgrid weights hw i hi, ?_, buildA_lower R wgrid weights hw i hi, ?_⟩
    · exact buildB_upper desired i (by omega)
    · have := buildB_lower desired i (by omega)
      rw [hd] at this
      exact this

/-- Witness for the C1 theorem at R = 2 with the one-point grid
wgrid = [1], weights = [2], desired = [1]. -/
theorem lp_structure_witness :
    (([(2 : ℝ)].length = [(1 : ℝ)].length) ∧ ([(1 : ℝ)].length = [(1 : ℝ)].length)) ∧
    (mkCall 2 [(1 : ℝ)] [(2 : ℝ)] [(1 : ℝ)] none).c.length = 2 + 2 ∧
    (mkCall 2 [(1 : ℝ)] [(2 : ℝ)] [(1 : ℝ)] none).bounds = (none, none) := by
  have h := lp_structure 2 [(1 : ℝ)] [(2 : ℝ)] [(1 : ℝ)] none (by simp) (by simp)
  exact ⟨⟨by simp, by simp⟩, h.1, h.2.2.2.2.2.2⟩

/-- C8: the adapter fails exactly when the solve is not cleanly successful:
it succeeds iff no numerical warning was emitted and the solver reported
success; a warning is promoted to the converted-warning error carrying the
original warning text; an unsuccessful solve yields the failure error
carrying the solver status message. -/
theorem adapter_strict_success (warning : Option String) (res : LinprogResult) :
    ((∃ taps, solve_linprog warning res = .ok taps) ↔
      warning = none ∧ res.success = true) ∧
    (∀ s, warning = some s →
      solve_linprog warning res =
        .error (.runtimeWarning ("linprog warning converted to error: " ++ s))) ∧
    (warning = none → res.success = false →
      solve_linprog warning res =
        .error (.runtimeError ("linprog failed: " ++ res.message))) := by
  refine ⟨⟨?_, ?_⟩, ?_, ?_⟩
  · rintro ⟨taps, h⟩
    cases warning with
    | some w => simp [solve_linprog] at h
    | none =>
      cases hs : res.success with
      | true => exact ⟨rfl, rfl⟩
      | false => simp [solve_linprog, hs] at h
  · rintro ⟨rfl, hs⟩
    exact ⟨tapsOf res.x, by simp [solve_linprog, hs]⟩
  · rintro s rfl
    rfl
  · rintro rfl hs
    simp [solve_linprog, hs]

/-- Witness for the C8 theorem: a solve with a warning fails with the
converted error, and a clean successful solve succeeds. -/
theorem adapter_strict_success_witness :
    solve_linprog (some "precision loss") ⟨true, [(1 : ℝ), 0], "ok"⟩ =
      .error (.runtimeWarning ("linprog warning converted to error: " ++ "precision loss")) ∧
    (∃ taps, solve_linprog none ⟨true, [(1 : ℝ), 0], "ok"⟩ = .ok taps) := by
  constructor
  · exact (adapter_strict_success (some "precision loss")
      ⟨true, [(1 : ℝ), 0], "ok"⟩).2.1 "precision loss" rfl
  · exact (adapter_strict_success none ⟨true, [(1 : ℝ), 0], "ok"⟩).1.mpr ⟨rfl, rfl⟩

/-- C9 counterexample: on a clean successful solve with solution vector
[1, 0], the adapter returns [1] (the reconstructed taps), which is not the
solution vector: the solution is not returned unmodified. -/
theorem adapter_output_differs_from_solution :
    solve_linprog none ⟨true, [(1 : ℝ), 0], "ok"⟩ = .ok [(1 : ℝ)] ∧
    [(1 : ℝ)] ≠ [(1 : ℝ), 0] := by
  constructor
  · show Except.ok (tapsOf [(1 : ℝ), 0]) = Except.ok [(1 : ℝ)]
    norm_num [tapsOf]
  · simp

/-- C9 amended: on a clean successful solve the adapter returns the tap
array reconstructed from the solution vector (slack entry dropped, half
coefficients mirrored and halved), not the raw solution vector. -/
theorem adapter_returns_reconstructed_taps (res : LinprogResult)
    (h : res.success = true) :
    solve_linprog none res = .ok (tapsOf res.x) := by
  simp [solve_linprog, h]

/-- Witness for the amended C9 theorem at a concrete successful result. -/
theorem adapter_returns_reconstructed_taps_witness :
    ((⟨true, [(1 : ℝ), 0, 3], "ok"⟩ : LinprogResult).success = true) ∧
    solve_linprog none (⟨true, [(1 : ℝ), 0, 3], "ok"⟩ : LinprogResult) =
      .ok (tapsOf [(1 : ℝ), 0, 3]) :=
  ⟨rfl, adapter_returns_reconstructed_taps
    (⟨true, [(1 : ℝ), 0, 3], "ok"⟩ : LinprogResult) rfl⟩

/-- C6: for a valid spec (0 < wp < ws < pi) the pass-band grid is strictly
increasing and contained in (0, wp], the stop-band grid is strictly
increasing and contained in [ws, pi], and no frequency belongs to both. -/
theorem grid_monotone_bounded_disjoint (numtaps : ℕ) (cutoff width fs : ℝ)
    (h0 : 0 < wpOf cutoff width fs)
    (h1 : wpOf cutoff width fs < wsOf cutoff width fs)
    (h2 : wsOf cutoff width fs < Real.pi) :
    (passGrid numtaps cutoff width fs).Pairwise (· < ·) ∧
    (∀ x ∈ passGrid numtaps cutoff width fs, 0 < x ∧ x ≤ wpOf cutoff width fs) ∧
    (stopGrid numtaps cutoff width fs).Pairwise (· < ·) ∧
    (∀ x ∈ stopGrid numtaps cutoff width fs,
      wsOf cutoff width fs ≤ x ∧ x ≤ Real.pi) ∧
    ∀ x ∈ passGrid numtaps cutoff width fs, x ∉ stopGrid numtaps cutoff width fs := by
  refine ⟨?_, ?_, ?_, ?_, ?_⟩
  · exact (linspace_pairwise 0 (wpOf cutoff width fs) _ h0).sublist
      (List.drop_sublist 1 _)
  · intro x hx
    exact mem_linspace_drop (wpOf cutoff width fs) _ h0 x hx
  · exact linspace_pairwise (wsOf cutoff width fs) Real.pi _ h2
  · intro x hx
    exact mem_linspace (wsOf cutoff width fs) Real.pi _ (le_of_lt h2) x hx
  · intro x hx hmem
    have hb1 := mem_linspace_drop (wpOf cutoff width fs) _ h0 x hx
    have hb2 := mem_linspace (wsOf cutoff width fs) Real.pi _ (le_of_lt h2) x hmem
    linarith [hb1.2, hb2.1]

/-- Witness for the C6 theorem at numtaps = 5, cutoff = 1/2, width = 1/5,
fs = 2, for which wp = 0.4*pi and ws = 0.6*pi. -/
theorem grid_monotone_bounded_disjoint_witness :
    (0 < wpOf (1 / 2) (1 / 5) 2 ∧ wpOf (1 / 2) (1 / 5) 2 < wsOf (1 / 2) (1 / 5) 2 ∧
      wsOf (1 / 2) (1 / 5) 2 < Real.pi) ∧
    (passGrid 5 (1 / 2) (1 / 5) 2).Pairwise (· < ·) ∧
    (stopGrid 5 (1 / 2) (1 / 5) 2).Pairwise (· < ·) := by
  have hpi := Real.pi_pos
  have h0 : 0 < wpOf (1 / 2) (1 / 5) 2 := by
    unfold wpOf
    nlinarith
  have h1 : wpOf (1 / 2) (1 / 5) 2 < wsOf (1 / 2) (1 / 5) 2 := by
    unfold wpOf wsOf
    nlinarith
  have h2 : wsOf (1 / 2) (1 / 5) 2 < Real.pi := by
    unfold wsOf
    nlinarith
  have h := grid_monotone_bounded_disjoint 5 (1 / 2) (1 / 5) 2 h0 h1 h2
  exact ⟨⟨h0, h1, h2⟩, h.1, h.2.2.1⟩

/-- C7: the grid is constructed exactly as specified: the edge formulas for
wp and ws, the density 16*numtaps/pi, the ceiling sample counts, the
pass-band grid as evenly spaced points covering [0, wp] with the first point
discarded, the stop-band grid as evenly spaced points covering [ws, pi],
where linspace produces n points evenly spaced from its start to its stop. -/
theorem grid_construction_formulas (numtaps : ℕ) (cutoff width fs : ℝ) :
    wpOf cutoff width fs = Real.pi * (cutoff - width / 2) / (fs / 2) ∧
    wsOf cutoff width fs = Real.pi * (cutoff + width / 2) / (fs / 2) ∧
    densityOf numtaps = 16 * (numtaps : ℝ) / Real.pi ∧
    numfreqsPassZ numtaps cutoff width fs =
      ⌈wpOf cutoff width fs * densityOf numtaps⌉ ∧
    numfreqsStopZ numtaps cutoff width fs =
      ⌈(Real.pi - wsOf cutoff width fs) * densityOf numtaps⌉ ∧
    passGrid numtaps cutoff width fs =
      (linspace 0 (wpOf cutoff width fs)
        (numfreqsPassZ numtaps cutoff width fs).toNat).drop 1 ∧
    stopGrid numtaps cutoff width fs =
      linspace (wsOf cutoff width fs) Real.pi
        (numfreqsStopZ numtaps cutoff width fs).toNat ∧
    (∀ a b : ℝ, ∀ n : ℕ, (linspace a b n).length = n) ∧
    (∀ a b : ℝ, ∀ k : ℕ, 2 ≤ k → ∀ i, i < k →
      (linspace a b k).getD i 0 = a + (i : ℝ) * ((b - a) / ((k : ℝ) - 1))) ∧
    (∀ a b : ℝ, ∀ k : ℕ, 2 ≤ k →
      (linspace a b k).getD 0 0 = a ∧ (linspace a b k).getD (k - 1) 0 = b) := by
  have hstep : ∀ a b : ℝ, ∀ k : ℕ, 2 ≤ k → ∀ i, i < k →
      (linspace a b k).getD i 0 = a + (i : ℝ) * ((b - a) / ((k : ℝ) - 1)) := by
    intro a b k hk i hik
    obtain ⟨n, rfl⟩ : ∃ n, k = n + 2 := ⟨k - 2, by omega⟩
    rw [linspace_getD a b n i (by omega)]
    push_cast
    ring_nf
  refine ⟨by unfold wpOf; ring, by unfold wsOf; ring, rfl, rfl, rfl, rfl, rfl,
    linspace_length, hstep, ?_⟩
  intro a b k hk
  constructor
  · rw [hstep a b k hk 0 (by omega)]
    simp
  · rw [hstep a b k hk (k - 1) (by omega)]
    have hk1 : ((k - 1 : ℕ) : ℝ) = (k : ℝ) - 1 := by
      have : (1 : ℕ) ≤ k := by omega
      push_cast [this]
      ring
    rw [hk1]
    have hne : (k : ℝ) - 1 ≠ 0 := by
      have : (2 : ℝ) ≤ (k : ℝ) := by exact_mod_cast hk
      linarith
    field_simp

/-- Witness for the C7 theorem at numtaps = 5, cutoff = 1/2, width = 1/5,
fs = 2, with the even-spacing clause instantiated at k = 3, i = 1. -/
theorem grid_construction_formulas_witness :
    numfreqsPassZ 5 (1 / 2) (1 / 5) 2 =
      ⌈wpOf (1 / 2) (1 / 5) 2 * densityOf 5⌉ ∧
    (2 ≤ 3 ∧ 1 < 3) ∧
    (linspace 0 (7 : ℝ) 3).getD 1 0 =
      0 + ((1 : ℕ) : ℝ) * ((7 - 0) / (((3 : ℕ) : ℝ) - 1)) := by
  have h := grid_construction_formulas 5 (1 / 2) (1 / 5) 2
  exact ⟨h.2.2.2.1, ⟨by omega, by omega⟩,
    h.2.2.2.2.2.2.2.2.1 0 7 3 (by omega) 1 (by omega)⟩

theorem firlpCall_ok (numtaps : ℕ) (deltap deltas cutoff width fs : ℝ)
    (tol : Option ℝ) (hp : 0 ≤ numfreqsPassZ numtaps cutoff width fs)
    (hs : 0 ≤ numfreqsStopZ numtaps cutoff width fs) :
    firlpCall numtaps deltap deltas cutoff width fs tol =
      .ok (mkCall ((numtaps - 1) / 2)
        (passGrid numtaps cutoff width fs ++ stopGrid numtaps cutoff width fs)
        ((passGrid numtaps cutoff width fs).map (fun _ => 1 / deltap) ++
          (stopGrid numtaps cutoff width fs).map (fun _ => 1 / deltas))
        ((passGrid numtaps cutoff width fs).map (fun _ => (1 : ℝ)) ++
          (stopGrid numtaps cutoff width fs).map (fun _ => (0 : ℝ))) tol) := by
  unfold firlpCall
  rw [if_neg (by omega), if_neg (by omega)]

theorem firlp_lowpass1_of_call (numtaps : ℕ) (deltap deltas cutoff width fs : ℝ)
    (tol : Option ℝ) (solver : LPCall → Option String × LinprogResult)
    (call : LPCall)
    (hc : firlpCall numtaps deltap deltas cutoff width fs tol = .ok call) :
    firlp_lowpass1 numtaps deltap deltas cutoff width fs tol solver =
      solve_linprog (solver call).1 (solver call).2 := by
  unfold firlp_lowpass1
  rw [hc]

/-- A stub external solver: it reports success with the all-zero point of
the dimension matching the number of LP variables and emits no warning. -/
def stubSolverZ : LPCall → Option String × LinprogResult :=
  fun call => (none, ⟨true, List.replicate call.c.length 0, "ok"⟩)

/-- A stub external solver reporting success with the fixed point [1, 0, 0]
(the dimension of the LP for numtaps = 4) and no warning. -/
def stubSolver3 : LPCall → Option String × LinprogResult :=
  fun _ => (none, ⟨true, [(1 : ℝ), 0, 0], "ok"⟩)

/-- A stub external solver reporting success with the fixed point
[1, 0, ..., 0] of length 42 (the dimension of the LP for numtaps = 81) and
no warning. -/
def stubSolver42 : LPCall → Option String × LinprogResult :=
  fun _ => (none, ⟨true, 1 :: List.replicate 41 0, "ok"⟩)

theorem numfreqsPassZ_deg : numfreqsPassZ 81 (1 / 4) (1 / 2) 2 = 0 := by
  rw [numfreqsPassZ_eq 81 (1 / 4) (1 / 2) 2 (by norm_num)]
  exact ceil_eval _ 0 (by norm_num)

theorem numfreqsStopZ_deg : numfreqsStopZ 81 (1 / 4) (1 / 2) 2 = 648 := by
  rw [numfreqsStopZ_eq 81 (1 / 4) (1 / 2) 2 (by norm_num)]
  exact ceil_eval _ 648 (by norm_num)

theorem tapsOf_one_zeros :
    tapsOf ((1 : ℝ) :: List.replicate 41 0) =
      List.replicate 40 (0 : ℝ) ++ [1] ++ List.replicate 40 0 := by
  have h41 : List.replicate 41 (0 : ℝ) = List.replicate 40 0 ++ [0] :=
    List.replicate_succ' 40 0
  unfold tapsOf
  rw [show ((1 : ℝ) :: List.replicate 41 0) = ((1 : ℝ) :: List.replicate 40 0) ++ [0] by
    rw [h41]
    rfl]
  rw [List.dropLast_concat]
  simp [List.map_replicate]
  norm_num

/-- C4 counterexample: at numtaps = 81, cutoff = 1/4, width = 1/2, fs = 2
the pass band receives zero computed grid samples (a degenerate spec), yet
the design function raises no error: it builds the LP, calls the solver, and
returns the taps of the stub solution. -/
theorem degenerate_spec_reaches_solver :
    numfreqsPassZ 81 (1 / 4) (1 / 2) 2 = 0 ∧
    firlp_lowpass1 81 (1 / 1000) (1 / 500) (1 / 4) (1 / 2) 2 none stubSolver42 =
      .ok (List.replicate 40 (0 : ℝ) ++ [1] ++ List.replicate 40 0) := by
  refine ⟨numfreqsPassZ_deg, ?_⟩
  have hcall := firlpCall_ok 81 (1 / 1000) (1 / 500) (1 / 4) (1 / 2) 2 none
    (by rw [numfreqsPassZ_deg]) (by rw [numfreqsStopZ_deg]; omega)
  rw [firlp_lowpass1_of_call 81 (1 / 1000) (1 / 500) (1 / 4) (1 / 2) 2 none
    stubSolver42 _ hcall]
  show Except.ok (tapsOf ((1 : ℝ) :: List.replicate 41 0)) = _
  rw [tapsOf_one_zeros]

/-- C4 amended: the design function performs no degenerate-spec validation.
The LP is built and handed to the solver exactly when both computed sample
counts are nonnegative — including when a band receives zero samples — and
the only failure before the solver call is the ValueError that
numpy.linspace raises on a negative sample count, not an InvalidSpec error. -/
theorem no_invalid_spec_validation (numtaps : ℕ) (deltap deltas cutoff width fs : ℝ)
    (tol : Option ℝ) :
    ((∃ call, firlpCall numtaps deltap deltas cutoff width fs tol = .ok call) ↔
      0 ≤ numfreqsPassZ numtaps cutoff width fs ∧
      0 ≤ numfreqsStopZ numtaps cutoff width fs) ∧
    (∀ e, firlpCall numtaps deltap deltas cutoff width fs tol = .error e →
      e = .valueError "Number of samples must be non-negative") := by
  constructor
  · constructor
    · rintro ⟨call, hc⟩
      unfold firlpCall at hc
      by_cases h1 : numfreqsPassZ numtaps cutoff width fs < 0
      · rw [if_pos h1] at hc
        simp at hc
      · by_cases h2 : numfreqsStopZ numtaps cutoff width fs < 0
        · rw [if_neg h1, if_pos h2] at hc
          simp at hc
        · exact ⟨by omega, by omega⟩
    · rintro ⟨hp, hs⟩
      exact ⟨_, firlpCall_ok numtaps deltap deltas cutoff width fs tol hp hs⟩
  · intro e he
    unfold firlpCall at he
    by_cases h1 : numfreqsPassZ numtaps cutoff width fs < 0
    · rw [if_pos h1] at he
      exact ((Except.error.injEq _ _).mp he).symm
    · by_cases h2 : numfreqsStopZ numtaps cutoff width fs < 0
      · rw [if_neg h1, if_pos h2] at he
        exact ((Except.error.injEq _ _).mp he).symm
      · rw [if_neg h1, if_neg h2] at he
        simp at he

/-- Witness for the amended C4 theorem: at the degenerate spec with zero
pass-band samples the LP is still built (the count is 0, not negative). -/
theorem no_invalid_spec_validation_witness :
    (0 ≤ numfreqsPassZ 81 (1 / 4) (1 / 2) 2 ∧
      0 ≤ numfreqsStopZ 81 (1 / 4) (1 / 2) 2) ∧
    ∃ call, firlpCall 81 (1 / 1000) (1 / 500) (1 / 4) (1 / 2) 2 none = .ok call := by
  have hp : 0 ≤ numfreqsPassZ 81 (1 / 4) (1 / 2) 2 := by rw [numfreqsPassZ_deg]
  have hs : 0 ≤ numfreqsStopZ 81 (1 / 4) (1 / 2) 2 := by
    rw [numfreqsStopZ_deg]
    omega
  exact ⟨⟨hp, hs⟩,
    (no_invalid_spec_validation 81 (1 / 1000) (1 / 500) (1 / 4) (1 / 2) 2 none).1.mpr
      ⟨hp, hs⟩⟩

theorem numfreqsPassZ_four : numfreqsPassZ 4 (1 / 2) (1 / 4) 2 = 24 := by
  rw [numfreqsPassZ_eq 4 (1 / 2) (1 / 4) 2 (by norm_num)]
  exact ceil_eval _ 24 (by norm_num)

theorem numfreqsStopZ_four : numfreqsStopZ 4 (1 / 2) (1 / 4) 2 = 24 := by
  rw [numfreqsStopZ_eq 4 (1 / 2) (1 / 4) 2 (by norm_num)]
  exact ceil_eval _ 24 (by norm_num)

/-- C5 counterexample: the even filter length numtaps = 4 is not rejected:
the design succeeds and silently returns the 3-tap array [0, 1, 0] (length
numtaps - 1) reconstructed from the stub solution [1, 0, 0]. -/
theorem even_numtaps_not_rejected :
    firlp_lowpass1 4 (1 / 1000) (1 / 500) (1 / 2) (1 / 4) 2 none stubSolver3 =
      .ok [(0 : ℝ), 1, 0] ∧ [(0 : ℝ), 1, 0].length = 4 - 1 := by
  constructor
  · have hcall := firlpCall_ok 4 (1 / 1000) (1 / 500) (1 / 2) (1 / 4) 2 none
      (by rw [numfreqsPassZ_four]; omega) (by rw [numfreqsStopZ_four]; omega)
    rw [firlp_lowpass1_of_call 4 (1 / 1000) (1 / 500) (1 / 2) (1 / 4) 2 none
      stubSolver3 _ hcall]
    show Except.ok (tapsOf [(1 : ℝ), 0, 0]) = _
    norm_num [tapsOf]
  · simp

/-- C5 amended: even numtaps is not rejected; for any positive numtaps and
any solution vector of the LP dimension R+2 with R = (numtaps - 1)/2, the
reconstructed array has length 2R+1, which equals numtaps when numtaps is
odd and numtaps - 1 when numtaps is even. -/
theorem taps_length_parity (numtaps : ℕ) (h1 : 1 ≤ numtaps) (x : List ℝ)
    (hx : x.length = (numtaps - 1) / 2 + 2) :
    (tapsOf x).length = 2 * ((numtaps - 1) / 2) + 1 ∧
    (numtaps % 2 = 1 → (tapsOf x).length = numtaps) ∧
    (numtaps % 2 = 0 → (tapsOf x).length = numtaps - 1) := by
  obtain ⟨a, q, hq, hql⟩ := dropLast_cons_of_length ((numtaps - 1) / 2) x hx
  have hlen : (tapsOf x).length = 2 * ((numtaps - 1) / 2) + 1 := by
    rw [tapsOf_length, hq]
    simp [hql]
  exact ⟨hlen, fun ho => by rw [hlen]; omega, fun he => by rw [hlen]; omega⟩

/-- Witness for the amended C5 theorem at the even length numtaps = 4 with
the solution vector [1, 2, 3]. -/
theorem taps_length_parity_witness :
    (1 ≤ 4 ∧ [(1 : ℝ), 2, 3].length = (4 - 1) / 2 + 2) ∧
    (tapsOf [(1 : ℝ), 2, 3]).length = 4 - 1 :=
  ⟨⟨by omega, by simp⟩,
    (taps_length_parity 4 (by omega) [(1 : ℝ), 2, 3] (by simp)).2.2 (by omega)⟩

/-- C10: for every numtaps, even or odd, if the external solver always
returns a point of the LP dimension and the pipeline succeeds, the returned
tap array has length 2*((numtaps - 1)/2) + 1. -/
theorem pipeline_taps_length (numtaps : ℕ) (deltap deltas cutoff width fs : ℝ)
    (tol : Option ℝ) (solver : LPCall → Option String × LinprogResult)
    (taps : List ℝ)
    (hdim : ∀ call, ((solver call).2).x.length = call.c.length)
    (hok : firlp_lowpass1 numtaps deltap deltas cutoff width fs tol solver = .ok taps) :
    taps.length = 2 * ((numtaps - 1) / 2) + 1 := by
  cases h : firlpCall numtaps deltap deltas cutoff width fs tol with
  | error e =>
    unfold firlp_lowpass1 at hok
    rw [h] at hok
    simp at hok
  | ok call =>
    have hcl : call.c.length = (numtaps - 1) / 2 + 2 := by
      unfold firlpCall at h
      by_cases h1 : numfreqsPassZ numtaps cutoff width fs < 0
      · rw [if_pos h1] at h
        simp at h
      · by_cases h2 : numfreqsStopZ numtaps cutoff width fs < 0
        · rw [if_neg h1, if_pos h2] at h
          simp at h
        · rw [if_neg h1, if_neg h2] at h
          rw [← (Except.ok.injEq _ _).mp h]
          simp [mkCall, buildC]
    rw [firlp_lowpass1_of_call numtaps deltap deltas cutoff width fs tol solver
      call h] at hok
    unfold solve_linprog at hok
    cases hw : (solver call).1 with
    | some w =>
      rw [hw] at hok
      simp at hok
    | none =>
      rw [hw] at hok
      cases hsucc : (solver call).2.success with
      | false =>
        rw [hsucc] at hok
        simp at hok
      | true =>
        rw [hsucc] at hok
        simp only [if_true] at hok
        have htaps : taps = tapsOf ((solver call).2).x := by
          have := (Except.ok.injEq _ _).mp hok
          exact this.symm
        have hxlen : ((solver call).2).x.length = (numtaps - 1) / 2 + 2 := by
          rw [hdim call, hcl]
        obtain ⟨a, q, hq, hql⟩ :=
          dropLast_cons_of_length ((numtaps - 1) / 2) _ hxlen
        rw [htaps, tapsOf_length, hq]
        simp [hql]

/-- Witness for the C10 theorem: numtaps = 5 with the all-zero stub solver
yields a 5-tap array. -/
theorem pipeline_taps_length_witness :
    (∀ call, ((stubSolverZ call).2).x.length = call.c.length) ∧
    firlp_lowpass1 5 (1 / 1000) (1 / 500) (1 / 2) (1 / 5) 2 none stubSolverZ =
      .ok [(0 : ℝ), 0, 0, 0, 0] ∧
    [(0 : ℝ), 0, 0, 0, 0].length = 2 * ((5 - 1) / 2) + 1 := by
  have hdim : ∀ call, ((stubSolverZ call).2).x.length = call.c.length := by
    intro call
    simp [stubSolverZ]
  have hpass : numfreqsPassZ 5 (1 / 2) (1 / 5) 2 = 32 := by
    rw [numfreqsPassZ_eq 5 (1 / 2) (1 / 5) 2 (by norm_num)]
    exact ceil_eval _ 32 (by norm_num)
  have hstop : numfreqsStopZ 5 (1 / 2) (1 / 5) 2 = 32 := by
    rw [numfreqsStopZ_eq 5 (1 / 2) (1 / 5) 2 (by norm_num)]
    exact ceil_eval _ 32 (by norm_num)
  have hcall := firlpCall_ok 5 (1 / 1000) (1 / 500) (1 / 2) (1 / 5) 2 none
    (by rw [hpass]; omega) (by rw [hstop]; omega)
  have hok : firlp_lowpass1 5 (1 / 1000) (1 / 500) (1 / 2) (1 / 5) 2 none stubSolverZ =
      .ok [(0 : ℝ), 0, 0, 0, 0] := by
    rw [firlp_lowpass1_of_call 5 (1 / 1000) (1 / 500) (1 / 2) (1 / 5) 2 none
      stubSolverZ _ hcall]
    show Except.ok (tapsOf (List.replicate (buildC ((5 - 1) / 2)).length 0)) = _
    norm_num [buildC, tapsOf, List.replicate]
  refine ⟨hdim, hok, ?_⟩
  exact pipeline_taps_length 5 (1 / 1000) (1 / 500) (1 / 2) (1 / 5) 2 none
    stubSolverZ [(0 : ℝ), 0, 0, 0, 0] hdim hok

end

end Firlp
